import Mathlib

/-!
Shallow embedding of the template acquisition and materialization pipeline of
`specify_cli` (files `templates/discovery.py` and `templates/download.py`).

Filesystems are modelled as association lists of named entries (files hold an
abstract `Content`; the JSON subset relevant to the settings merge is modelled
as a flat string-to-integer object).  Paths are lists of path components.
Machine strings are Lean `String`s; the ASCII-digit subset of Python's `\d`
regex class is used for version parsing.
-/

namespace SpecKit

/-- File contents: either a parseable flat JSON object (the subset relevant to
`.vscode/settings.json` merging) or opaque text that `json.load` rejects. -/
inductive Content where
  | jsonObj (fields : List (String × Int))
  | text (s : String)
deriving DecidableEq, Repr

/-- A filesystem entry: a file with contents, or a directory holding a listing
of named entries (association list; names are unique in a real filesystem). -/
inductive Entry where
  | file (c : Content)
  | dir (es : List (String × Entry))
deriving Repr

/-- A directory listing (also used as the whole filesystem, rooted). -/
abbrev Listing := List (String × Entry)

/-- A path, as a list of components (as produced by `pathlib` joining). -/
abbrev FPath := List String

/-- Look up a name in a directory listing (first match). -/
def getEntry : Listing → String → Option Entry
  | [], _ => none
  | (n, e) :: es, k => if n = k then some e else getEntry es k

/-- Replace the entry under a name, or append it if absent. -/
def setEntry : Listing → String → Entry → Listing
  | [], k, v => [(k, v)]
  | (n, e) :: es, k, v => if n = k then (k, v) :: es else (n, e) :: setEntry es k v

/-- Remove every entry under a name from a listing. -/
def removeEntry (es : Listing) (k : String) : Listing :=
  es.filter (fun p => decide (p.1 ≠ k))

/-- Resolve a path from a root listing.  The empty path denotes the root. -/
def lookupPath : Listing → FPath → Option Entry
  | es, [] => some (Entry.dir es)
  | es, k :: ks =>
    match getEntry es k with
    | none => none
    | some e =>
      match ks, e with
      | [], _ => some e
      | _ :: _, Entry.dir sub => lookupPath sub ks
      | _ :: _, Entry.file _ => none

/-- `os.path`-style existence test. -/
def pathExists (es : Listing) (p : FPath) : Bool :=
  (lookupPath es p).isSome

/-- Write an entry at a path, creating missing intermediate directories (the
`mkdir(parents=True)` effect).  Fails (`none`, modelling an `OSError`) when an
intermediate component is a file, or when the final component would replace a
file with a directory or a directory with a file. -/
def setPath : Listing → FPath → Entry → Option Listing
  | _, [], _ => none
  | es, [k], v =>
    match getEntry es k, v with
    | none, _ => some (setEntry es k v)
    | some (Entry.file _), Entry.file _ => some (setEntry es k v)
    | some (Entry.file _), Entry.dir _ => none
    | some (Entry.dir _), Entry.dir _ => some (setEntry es k v)
    | some (Entry.dir _), Entry.file _ => none
  | es, k :: k2 :: ks, v =>
    match getEntry es k with
    | some (Entry.file _) => none
    | some (Entry.dir s) =>
      (setPath s (k2 :: ks) v).map (fun s2 => setEntry es k (Entry.dir s2))
    | none =>
      (setPath [] (k2 :: ks) v).map (fun s2 => setEntry es k (Entry.dir s2))

/-- Remove the entry at a path, if present (no-op otherwise).  Models the
guarded `unlink` / `rmtree` / `rmdir` removals. -/
def removePath : Listing → FPath → Listing
  | es, [] => es
  | es, [k] => removeEntry es k
  | es, k :: k2 :: ks =>
    match getEntry es k with
    | some (Entry.dir s) => setEntry es k (Entry.dir (removePath s (k2 :: ks)))
    | _ => es

/-- Last component of a path (`Path.name`), empty for the root. -/
def lastName (p : FPath) : String := (p.getLast?).getD ""

/-- The sibling temporary path used by the fresh-directory flatten step
(`project_path.parent / f"{project_path.name}_temp"`). -/
def tempOf (proj : FPath) : FPath :=
  proj.dropLast ++ [lastName proj ++ "_temp"]

/-! ## Version parsing (`discovery.py` and the filename re-parse in `download.py`) -/

/-- Starts-with test on character lists. -/
def listStartsWith : List Char → List Char → Bool
  | _, [] => true
  | [], _ :: _ => false
  | h :: hs, p :: ps => h == p && listStartsWith hs ps

/-- `int()` on a (non-empty, ASCII) digit string. -/
def digitsToNat (ds : List Char) : Nat :=
  ds.foldl (fun n c => n * 10 + (c.toNat - 48)) 0

/-- Split a leading `\d+\.\d+\.\d+` group off a character list: returns the
three (non-empty) digit groups and the remainder, or `none` when the list does
not start with such a group. -/
def splitTriple (cs : List Char) : Option ((List Char × List Char × List Char) × List Char) :=
  let (a, r1) := cs.span Char.isDigit
  if a.isEmpty then none else
  match r1 with
  | '.' :: r2 =>
    let (b, r3) := r2.span Char.isDigit
    if b.isEmpty then none else
    match r3 with
    | '.' :: r4 =>
      let (c, r5) := r4.span Char.isDigit
      if c.isEmpty then none else some ((a, b, c), r5)
    | _ => none
  | _ => none

/-- The anchored filename pattern of `find_local_template`
(`^spec-kit-template-{assistant}-{script_type}-v(\d+\.\d+\.\d+)\.zip$`):
returns the parsed `(major, minor, patch)` integers on a match. -/
def parseTemplateName (assistant scriptType name : String) : Option (Nat × Nat × Nat) :=
  let pre := ("spec-kit-template-" ++ assistant ++ "-" ++ scriptType ++ "-v").data
  if listStartsWith name.data pre then
    match splitTriple (name.data.drop pre.length) with
    | some ((a, b, c), ['.', 'z', 'i', 'p']) => some (digitsToNat a, digitsToNat b, digitsToNat c)
    | _ => none
  else none

/-- A semantic version triple, compared as Python compares integer tuples. -/
abbrev Version := Nat × Nat × Nat

/-- Python tuple `<` on `(major, minor, patch)`: integer lexicographic. -/
def vlt (x y : Version) : Bool :=
  decide (x.1 < y.1) ||
    (x.1 == y.1 && (decide (x.2.1 < y.2.1) ||
      (x.2.1 == y.2.1 && decide (x.2.2 < y.2.2))))

/-- Stable descending insertion (`list.sort(key=..., reverse=True)` places an
element before the first strictly-smaller key, after all keys `≥` its own). -/
def insertByVersion (x : String × Version) : List (String × Version) → List (String × Version)
  | [] => [x]
  | y :: ys => if vlt y.2 x.2 then x :: y :: ys else y :: insertByVersion x ys

/-- Stable sort by version, descending (`all_matching_files.sort(key=lambda x:
x[1], reverse=True)`). -/
def sortByVersionDesc (l : List (String × Version)) : List (String × Version) :=
  l.foldl (fun acc x => insertByVersion x acc) []

/-- `find_local_template`: the candidate filenames seen in the searched
directories (installation directory first, then the optional extra directory)
are matched against the anchored pattern, parsed, sorted by version descending,
and the first (latest) is returned; no match yields `none`. -/
def find_local_template (assistant scriptType : String) (names : List String) : Option String :=
  match sortByVersionDesc (names.filterMap
      (fun n => (parseTemplateName assistant scriptType n).map (fun v => (n, v)))) with
  | [] => none
  | c :: _ => some c.1

/-- `re.search(r'-v(\d+\.\d+\.\d+)\.zip$', name)`: scan left-to-right for the
first position where `-v` is followed by a digit triple and then exactly
`.zip` at the end of the string; return the captured group. -/
def searchVersionGroup (name : String) : Option String :=
  go name.data
where
  go : List Char → Option String
  | [] => none
  | ch :: rest =>
    if ch = '-' then
      match rest with
      | 'v' :: tail =>
        match splitTriple tail with
        | some ((a, b, c), ['.', 'z', 'i', 'p']) =>
          some (String.mk (a ++ '.' :: (b ++ '.' :: c)))
        | _ => go rest
      | _ => go rest
    else go rest

/-- The release tag recorded for a locally resolved template
(`version = match.group(1) if match else "unknown"` then `f"v{version}"`). -/
def localRelease (name : String) : String :=
  let version := (searchVersionGroup name).getD "unknown"
  "v" ++ version

/-- Whether a string has the shape `vX.Y.Z` (a `v` followed by exactly a
digit triple). -/
def isVersionTag (s : String) : Bool :=
  match s.data with
  | 'v' :: cs =>
    match splitTriple cs with
    | some (_, []) => true
    | _ => false
  | _ => false

/-! ## Bearer-token resolution and the remote fetch (`download.py`) -/

/-- Python `str.strip()` (on the ASCII whitespace subset): drop leading and
trailing whitespace characters. -/
def pyStrip (s : String) : String :=
  String.mk (((s.data.dropWhile Char.isWhitespace).reverse.dropWhile Char.isWhitespace).reverse)

/-- The two environment variables consulted for a GitHub token. -/
structure TokenEnv where
  ghToken : Option String
  githubToken : Option String
deriving DecidableEq, Repr

/-- Python truthiness of an optional string: `None` and `""` are falsy. -/
def pyTruthy (o : Option String) : Bool :=
  decide ((o.getD "") ≠ "")

/-- The value produced by the `or`-chain
`cli_token or os.getenv("GH_TOKEN") or os.getenv("GITHUB_TOKEN") or ""`:
the first truthy value, else `""`. -/
def firstRawToken (cliToken : Option String) (env : TokenEnv) : String :=
  if pyTruthy cliToken then cliToken.getD ""
  else if pyTruthy env.ghToken then env.ghToken.getD ""
  else if pyTruthy env.githubToken then env.githubToken.getD ""
  else ""

/-- `_github_auth_headers`: strip the chained value; a non-empty result is
attached as a single `Authorization: Bearer <token>` header, otherwise the
header dict is empty. -/
def github_auth_headers (cliToken : Option String) (env : TokenEnv) : List (String × String) :=
  let token := pyStrip (firstRawToken cliToken env)
  if token = "" then [] else [("Authorization", "Bearer " ++ token)]

/-- Modelled from the spec claim's words (for comparison with
`github_auth_headers`, which is translated from the source): the token is the
first of parameter, `GH_TOKEN`, `GITHUB_TOKEN` whose stripped value is
non-empty, with empty or whitespace-only values treated as absent so that each
such value falls through to the next source. -/
def claimedToken (cliToken : Option String) (env : TokenEnv) : Option String :=
  if pyStrip (cliToken.getD "") ≠ "" then some (pyStrip (cliToken.getD ""))
  else if pyStrip (env.ghToken.getD "") ≠ "" then some (pyStrip (env.ghToken.getD ""))
  else if pyStrip (env.githubToken.getD "") ≠ "" then some (pyStrip (env.githubToken.getD ""))
  else none

/-- Python `pat in hay` substring test. -/
def containsSubstring (hay pat : String) : Bool :=
  go hay.data
where
  go : List Char → Bool
  | [] => listStartsWith [] pat.data
  | c :: rest => listStartsWith (c :: rest) pat.data || go rest

/-- Python `hay.endswith(suf)`. -/
def strEndsWith (hay suf : String) : Bool :=
  listStartsWith hay.data.reverse suf.data.reverse

/-- A release asset as served by the releases API. -/
structure Asset where
  name : String
  size : Nat
  url : String
deriving DecidableEq, Repr

/-- The response to the `releases/latest` API request. -/
structure ApiResponse where
  status : Nat
  bodyOk : Bool
  tagName : String
  assets : List Asset
deriving DecidableEq, Repr

/-- The response to the asset-download request: HTTP status, the body chunks
streamed, and whether a transport error strikes mid-stream. -/
structure StreamResponse where
  status : Nat
  chunks : List String
  midStreamError : Bool
deriving DecidableEq, Repr

/-- Both remote responses for one `download_template_from_github` call. -/
structure GithubWorld where
  api : ApiResponse
  download : StreamResponse
deriving DecidableEq, Repr

/-- Asset selection: `matching_assets[0]` of the assets whose name contains
`spec-kit-template-{assistant}-{script_type}` and ends with `.zip`. -/
def matchingAsset (assistant scriptType : String) (assets : List Asset) : Option Asset :=
  (assets.filter (fun a =>
    containsSubstring a.name ("spec-kit-template-" ++ assistant ++ "-" ++ scriptType)
      && strEndsWith a.name ".zip")).head?

/-- Metadata returned by a successful remote download. -/
structure DlMeta where
  filename : String
  size : Nat
  release : String
  assetUrl : String
deriving DecidableEq, Repr

/-- Observable trace of one `download_template_from_github` call: the headers
of each HTTP request actually issued (`none` when the request is never made),
the state of the file at the computed destination path afterwards, and the
outcome. -/
structure DlTrace where
  request1 : Option (List (String × String))
  request2 : Option (List (String × String))
  destFile : Option Content
  success : Bool
  meta : Option DlMeta
deriving DecidableEq, Repr

/-- `download_template_from_github`: request the latest release (status must
be 200 and the body must parse), select the matching asset (first match, else
fatal), then stream the asset to `download_dir / filename` (status must be
200; on any failure after that point the partial file is unlinked before the
error propagates).  `preDest` is the file already at the destination path, if
any.  Both requests carry `_github_auth_headers(github_token)`. -/
def download_template_from_github (assistant scriptType : String)
    (cliToken : Option String) (env : TokenEnv) (w : GithubWorld)
    (preDest : Option Content) : DlTrace :=
  let hdrs := github_auth_headers cliToken env
  if w.api.status != 200 || !w.api.bodyOk then
    ⟨some hdrs, none, preDest, false, none⟩
  else
    match matchingAsset assistant scriptType w.api.assets with
    | none => ⟨some hdrs, none, preDest, false, none⟩
    | some asset =>
      if w.download.status != 200 then
        ⟨some hdrs, some hdrs, none, false, none⟩
      else if w.download.midStreamError then
        ⟨some hdrs, some hdrs, none, false, none⟩
      else
        ⟨some hdrs, some hdrs, some (Content.text (String.join w.download.chunks)), true,
          some ⟨asset.name, asset.size, w.api.tagName, asset.url⟩⟩

/-! ## Archive materialization (`download_and_extract_template`) -/

/-- The flat JSON object subset used by the settings merge. -/
abbrev JsonObj := List (String × Int)

/-- `json.load` on a file's contents: succeeds exactly on the parseable
subset. -/
def parseJson : Content → Option JsonObj
  | Content.jsonObj fields => some fields
  | Content.text _ => none

/-- The injected `merge_json_files` collaborator: receives (the contents of)
the existing destination file and the newly loaded settings; `none` models the
collaborator raising. -/
abbrev MergeFn := Content → JsonObj → Option JsonObj

/-- Provenance metadata of the resolved template (the fields the pipeline
branches on). -/
structure Meta where
  filename : String
  release : String
  source : String
deriving DecidableEq, Repr

/-- A local template as resolved by `find_local_template`: where its zip file
lives, its filename, and the tree its archive extracts to. -/
structure LocalT where
  path : FPath
  name : String
  tree : Listing
deriving Repr

/-- A remote template as produced by `download_template_from_github`: asset
filename, release tag, and the tree its archive extracts to. -/
structure RemoteT where
  filename : String
  tagName : String
  tree : Listing
deriving Repr

/-- Metadata built for a local template (filename re-parse, `source: local`). -/
def localMetaOf (lt : LocalT) : Meta :=
  ⟨lt.name, localRelease lt.name, "local"⟩

/-- Metadata built for a remote template (`meta["source"] = "github"`). -/
def remoteMetaOf (rt : RemoteT) : Meta :=
  ⟨rt.filename, rt.tagName, "github"⟩

/-- `zip_ref.extractall(base)` member by member; an `OSError` (modelled by a
failing `setPath`) aborts with the filesystem as mutated so far. -/
def extractAll (fs : Listing) (base : FPath) : Listing → Except Listing Listing
  | [] => Except.ok fs
  | (n, e) :: rest =>
    match setPath fs (base ++ [n]) e with
    | none => Except.error fs
    | some fs1 => extractAll fs1 base rest

/-- `shutil.move(src, dst)`: into an existing directory the source is moved
inside it (failing if that occupied); onto a file or a free path it is a
rename.  Errors carry the filesystem at the raise point. -/
def movePath (fs : Listing) (src dst : FPath) : Except Listing Listing :=
  match lookupPath fs src with
  | none => Except.error fs
  | some e =>
    match lookupPath fs dst with
    | some (Entry.dir _) =>
      if pathExists fs (dst ++ [lastName src]) then Except.error fs
      else
        match setPath fs (dst ++ [lastName src]) e with
        | none => Except.error fs
        | some fs1 => Except.ok (removePath fs1 src)
    | _ =>
      match setPath fs dst e with
      | none => Except.error fs
      | some fs1 => Except.ok (removePath fs1 src)

/-- The flatten step of fresh-directory mode: move the single nested directory
`proj/d` to the sibling `{proj.name}_temp`, `rmdir` the now-empty destination,
and rename the temporary into the destination's place. -/
def flattenNested (fs : Listing) (proj : FPath) (d : String) : Except Listing Listing :=
  let nested := proj ++ [d]
  let temp := tempOf proj
  match movePath fs nested temp with
  | Except.error e => Except.error e
  | Except.ok fs1 =>
    match lookupPath fs1 proj with
    | some (Entry.dir []) =>
      let fs2 := removePath fs1 proj
      movePath fs2 temp proj
    | _ => Except.error fs1

/-- Fresh-directory mode: `project_path.mkdir(parents=True)` (fatal when the
path already exists), extract the archive into it, then flatten when exactly
one top-level item was extracted and it is a directory. -/
def freshExtract (fs : Listing) (proj : FPath) (tree : Listing) : Except Listing Listing :=
  if pathExists fs proj then Except.error fs
  else
    match setPath fs proj (Entry.dir []) with
    | none => Except.error fs
    | some fs1 =>
      match extractAll fs1 proj tree with
      | Except.error e => Except.error e
      | Except.ok fs2 =>
        match lookupPath fs2 proj with
        | some (Entry.dir [(d, Entry.dir _)]) => flattenNested fs2 proj d
        | _ => Except.ok fs2

/-- All file descendants of a directory listing with their relative paths, in
traversal order (`item.rglob('*')` filtered to files). -/
def filesOf : Listing → List (FPath × Content)
  | [] => []
  | (n, Entry.file c) :: rest => ([n], c) :: filesOf rest
  | (n, Entry.dir sub) :: rest =>
    (filesOf sub).map (fun p => (n :: p.1, p.2)) ++ filesOf rest

/-- The merge-mode special-case test on the destination file path:
`dest_file.name == "settings.json" and dest_file.parent.name == ".vscode"`. -/
def isVscodeTarget (p : FPath) : Bool :=
  match p.reverse with
  | name :: parent :: _ => name == "settings.json" && parent == ".vscode"
  | _ => false

/-- `handle_vscode_settings`: load the archive-side JSON; when the destination
exists and a merge collaborator is supplied, write the merged object; in every
failure or fallback branch (`json.load` raises, no collaborator, destination
absent, collaborator raises) copy the archive file verbatim.  A directory at
the destination path makes the copy itself raise (`none`). -/
def handle_vscode_settings (fs : Listing) (destFile : FPath) (cArch : Content)
    (mergeFn : Option MergeFn) : Option Listing :=
  match lookupPath fs destFile with
  | some (Entry.dir _) => none
  | destE =>
    match parseJson cArch,
        (match destE with
         | some (Entry.file c) => some c
         | _ => none : Option Content),
        mergeFn with
    | some newSettings, some cDest, some m =>
      match m cDest newSettings with
      | some merged => setPath fs destFile (Entry.file (Content.jsonObj merged))
      | none => setPath fs destFile (Entry.file cArch)
    | _, _, _ => setPath fs destFile (Entry.file cArch)

/-- One file of a colliding directory in merge mode: create intermediate
directories, then either the `.vscode/settings.json` special case or a plain
overwriting copy. -/
def mergeStepFile (fs : Listing) (destPath : FPath) (rel : FPath × Content)
    (mergeFn : Option MergeFn) : Except Listing Listing :=
  let destFile := destPath ++ rel.1
  if isVscodeTarget destFile then
    match handle_vscode_settings fs destFile rel.2 mergeFn with
    | none => Except.error fs
    | some fs1 => Except.ok fs1
  else
    match setPath fs destFile (Entry.file rel.2) with
    | none => Except.error fs
    | some fs1 => Except.ok fs1

/-- Merge every file of a colliding top-level directory into the destination. -/
def mergeFiles (fs : Listing) (destPath : FPath) (files : List (FPath × Content))
    (mergeFn : Option MergeFn) : Except Listing Listing :=
  match files with
  | [] => Except.ok fs
  | f :: rest =>
    match mergeStepFile fs destPath f mergeFn with
    | Except.error e => Except.error e
    | Except.ok fs1 => mergeFiles fs1 destPath rest mergeFn

/-- One top-level item of the source root in merge mode: a colliding directory
is merged file-by-file, a non-colliding directory is `shutil.copytree`d
wholesale, and a file is copied (overwriting any same-named file). -/
def mergeTopItem (fs : Listing) (proj : FPath) (item : String × Entry)
    (mergeFn : Option MergeFn) : Except Listing Listing :=
  let destPath := proj ++ [item.1]
  match item.2 with
  | Entry.file c =>
    match setPath fs destPath (Entry.file c) with
    | none => Except.error fs
    | some fs1 => Except.ok fs1
  | Entry.dir sub =>
    if pathExists fs destPath then
      mergeFiles fs destPath (filesOf sub) mergeFn
    else
      match setPath fs destPath (Entry.dir sub) with
      | none => Except.error fs
      | some fs1 => Except.ok fs1

/-- All top-level items of the source root, in order. -/
def mergeItems (fs : Listing) (proj : FPath) (items : Listing)
    (mergeFn : Option MergeFn) : Except Listing Listing :=
  match items with
  | [] => Except.ok fs
  | it :: rest =>
    match mergeTopItem fs proj it mergeFn with
    | Except.error e => Except.error e
    | Except.ok fs1 => mergeItems fs1 proj rest mergeFn

/-- Merge-into-existing mode: the archive is staged in a private temporary
directory (modelled by its tree); when the staging area holds exactly one item
and it is a directory, that inner directory becomes the source root; then the
top-level items are reconciled with the destination. -/
def mergeExtract (fs : Listing) (proj : FPath) (tree : Listing)
    (mergeFn : Option MergeFn) : Except Listing Listing :=
  let src :=
    match tree with
    | [(_, Entry.dir sub)] => sub
    | _ => tree
  mergeItems fs proj src mergeFn

/-- The extract phase (`try` body): merge mode or fresh-directory mode. -/
def extractPhase (isCurrentDir : Bool) (fs : Listing) (proj : FPath)
    (tree : Listing) (mergeFn : Option MergeFn) : Except Listing Listing :=
  if isCurrentDir then mergeExtract fs proj tree mergeFn
  else freshExtract fs proj tree

/-- The `finally` cleanup: delete the archive exactly when
`meta.get("source") == "github"` and the file still exists. -/
def cleanupStep (fs : Listing) (meta : Meta) (zipPath : FPath) : Listing :=
  if meta.source = "github" && pathExists fs zipPath then removePath fs zipPath else fs

/-- Outcome of one `download_and_extract_template` run: whether it returned
normally (`false` models `typer.Exit(1)`), the final filesystem, whether the
remote fetch path was entered, and the resolved provenance (absent when
resolution itself failed). -/
structure RunResult where
  ok : Bool
  fs : Listing
  remoteInvoked : Bool
  meta : Option Meta
  zipPath : Option FPath
deriving Repr

/-- Extraction, the `except` rollback (`shutil.rmtree(project_path)` whenever
fresh-directory mode and the path exists at the failure point), and the
`finally` cleanup. -/
def extractAndCleanup (isCurrentDir : Bool) (fs : Listing) (proj : FPath)
    (zipPath : FPath) (meta : Meta) (tree : Listing)
    (mergeFn : Option MergeFn) : Bool × Listing :=
  match extractPhase isCurrentDir fs proj tree mergeFn with
  | Except.ok fs2 => (true, cleanupStep fs2 meta zipPath)
  | Except.error efs =>
    let efs2 :=
      if !isCurrentDir && pathExists efs proj then removePath efs proj else efs
    (false, cleanupStep efs2 meta zipPath)

/-- `download_and_extract_template`: resolve local-first (the result of
`find_local_template` is the `localT` argument); fall back to the remote
download (`remoteT = none` models the download raising, which propagates
before extraction begins); then extract, roll back on failure, and run the
provenance-aware cleanup.  `cwd` is the directory the remote zip is
downloaded into. -/
def download_and_extract_template (proj cwd : FPath) (isCurrentDir : Bool)
    (localT : Option LocalT) (remoteT : Option RemoteT)
    (mergeFn : Option MergeFn) (fs : Listing) : RunResult :=
  match localT with
  | some lt =>
    let r := extractAndCleanup isCurrentDir fs proj lt.path (localMetaOf lt) lt.tree mergeFn
    ⟨r.1, r.2, false, some (localMetaOf lt), some lt.path⟩
  | none =>
    match remoteT with
    | none => ⟨false, fs, true, none, none⟩
    | some rt =>
      let zp := cwd ++ [rt.filename]
      match setPath fs zp (Entry.file (Content.text rt.filename)) with
      | none => ⟨false, fs, true, none, none⟩
      | some fsDl =>
        let r := extractAndCleanup isCurrentDir fsDl proj zp (remoteMetaOf rt) rt.tree mergeFn
        ⟨r.1, r.2, true, some (remoteMetaOf rt), some zp⟩

/-- The filesystem carried by either side of an extraction step's result (the
state after the step, whether it returned or raised). -/
def resultFs : Except Listing Listing → Listing
  | Except.ok fs => fs
  | Except.error fs => fs

/-- Merge-mode scenario for the settings special case: the destination
(`work`, the current directory) already contains `.vscode/settings.json` with
contents `cD`; the resolved local archive contains `.vscode/settings.json`
with contents `cA` plus a second top-level file (real templates carry several
top-level entries, which keeps the staging-flatten step out of play). -/
def vscodeMergeRun (cD cA : Content) (mf : Option MergeFn) : RunResult :=
  download_and_extract_template ["work"] ["work"] true
    (some ⟨["tpl.zip"], "spec-kit-template-claude-sh-v1.2.3.zip",
      [(".vscode", Entry.dir [("settings.json", Entry.file cA)]),
       ("README.md", Entry.file (Content.text "readme"))]⟩) none mf
    [("work", Entry.dir [(".vscode", Entry.dir [("settings.json", Entry.file cD)])]),
     ("tpl.zip", Entry.file (Content.text "z"))]

/-- Merge-mode scenario with a colliding top-level directory `tools` whose
`.vscode/settings.json` sits one intermediate directory (`s`, any name) deep,
plus a non-colliding top-level directory `fresh` with an arbitrary subtree
`T`. -/
def deepMergeRun (s : String) (cD cA : Content) (T : Listing)
    (mf : Option MergeFn) : RunResult :=
  download_and_extract_template ["work"] ["work"] true
    (some ⟨["tpl.zip"], "spec-kit-template-claude-sh-v1.2.3.zip",
      [("tools", Entry.dir [(s, Entry.dir [(".vscode", Entry.dir
          [("settings.json", Entry.file cA)])])]),
       ("fresh", Entry.dir T)]⟩) none mf
    [("work", Entry.dir [("tools", Entry.dir [(s, Entry.dir [(".vscode", Entry.dir
        [("settings.json", Entry.file cD)])])])]),
     ("tpl.zip", Entry.file (Content.text "z"))]

/-- Fresh-directory scenario: the archive extracts to a single top-level
directory `d` with arbitrary contents `sub`; the destination
`work/proj` does not yet exist. -/
def freshFlattenRun (d : String) (sub : Listing) (z : Content) : RunResult :=
  download_and_extract_template ["work", "proj"] ["work"] false
    (some ⟨["tpl.zip"], "spec-kit-template-claude-sh-v1.2.3.zip",
      [(d, Entry.dir sub)]⟩) none none
    [("work", Entry.dir []), ("tpl.zip", Entry.file z)]

/-! ## Theorems -/

set_option maxRecDepth 8000

theorem vlt_iff (x y : Version) :
    vlt x y = true ↔
      (x.1 < y.1 ∨ (x.1 = y.1 ∧ (x.2.1 < y.2.1 ∨ (x.2.1 = y.2.1 ∧ x.2.2 < y.2.2)))) := by
  simp [vlt]

theorem vlt_irrefl (x : Version) : vlt x x = false := by
  cases h : vlt x x
  · rfl
  · rw [vlt_iff] at h
    omega

theorem vlt_asymm (x y : Version) (h : vlt y x = true) : vlt x y = false := by
  cases h2 : vlt x y
  · rfl
  · rw [vlt_iff] at h h2
    omega

theorem vlt_chain (x y z : Version) (h1 : vlt y x = true) (h2 : vlt y z = false) :
    vlt x z = false := by
  cases h3 : vlt x z
  · rfl
  · have h2' : ¬ vlt y z = true := by simp [h2]
    rw [vlt_iff] at h1 h3 h2'
    omega

theorem mem_insertByVersion (x a : String × Version) (l : List (String × Version)) :
    a ∈ insertByVersion x l ↔ a = x ∨ a ∈ l := by
  induction l with
  | nil => simp [insertByVersion]
  | cons y ys ih =>
    simp only [insertByVersion]
    split
    · simp [List.mem_cons]
    · simp [List.mem_cons, ih]
      tauto

theorem pairwise_insertByVersion (x : String × Version) (l : List (String × Version))
    (hl : l.Pairwise (fun p q => vlt p.2 q.2 = false)) :
    (insertByVersion x l).Pairwise (fun p q => vlt p.2 q.2 = false) := by
  induction l with
  | nil => simp [insertByVersion]
  | cons y ys ih =>
    rw [List.pairwise_cons] at hl
    obtain ⟨hy, hys⟩ := hl
    simp only [insertByVersion]
    split
    · rename_i hlt
      refine List.Pairwise.cons ?_ (List.Pairwise.cons hy hys)
      intro z hz
      rcases List.mem_cons.mp hz with rfl | hz'
      · exact vlt_asymm _ _ hlt
      · exact vlt_chain _ _ _ hlt (hy z hz')
    · rename_i hnlt
      refine List.Pairwise.cons ?_ (ih hys)
      intro z hz
      rcases (mem_insertByVersion x z ys).mp hz with rfl | hz'
      · cases h : vlt y.2 z.2
        · rfl
        · exact absurd h hnlt
      · exact hy z hz'

theorem pairwise_foldl_insert (l : List (String × Version)) :
    ∀ acc, acc.Pairwise (fun p q => vlt p.2 q.2 = false) →
      (l.foldl (fun acc x => insertByVersion x acc) acc).Pairwise
        (fun p q => vlt p.2 q.2 = false) := by
  induction l with
  | nil => intro acc h; simpa using h
  | cons x xs ih =>
    intro acc h
    simp only [List.foldl_cons]
    exact ih _ (pairwise_insertByVersion x acc h)

theorem mem_foldl_insert (a : String × Version) (l : List (String × Version)) :
    ∀ acc, a ∈ l.foldl (fun acc x => insertByVersion x acc) acc ↔ a ∈ acc ∨ a ∈ l := by
  induction l with
  | nil => simp
  | cons x xs ih =>
    intro acc
    simp only [List.foldl_cons]
    rw [ih]
    simp [mem_insertByVersion]
    tauto

/-- C2: whenever `find_local_template` returns a file, that file is one of the
candidate names, parses under the anchored
`spec-kit-template-{assistant}-{script_type}-v{major}.{minor}.{patch}.zip`
pattern, and its integer `(major, minor, patch)` tuple is maximal under
integer lexicographic comparison among every parsable candidate; non-matching
or unparsable filenames are skipped (they simply impose no bound). -/
theorem find_local_template_picks_numeric_max (assistant scriptType : String)
    (names : List String) (f : String)
    (h : find_local_template assistant scriptType names = some f) :
    f ∈ names ∧ ∃ v, parseTemplateName assistant scriptType f = some v ∧
      ∀ g ∈ names, ∀ w, parseTemplateName assistant scriptType g = some w →
        vlt v w = false := by
  unfold find_local_template at h
  cases hs : sortByVersionDesc (names.filterMap
      (fun n => (parseTemplateName assistant scriptType n).map (fun v => (n, v)))) with
  | nil => rw [hs] at h; exact absurd h (by simp)
  | cons c rest =>
    rw [hs] at h
    have hf : c.1 = f := by simpa using h
    have hmemsort : c ∈ sortByVersionDesc (names.filterMap
        (fun n => (parseTemplateName assistant scriptType n).map (fun v => (n, v)))) := by
      rw [hs]; exact List.mem_cons_self c rest
    have hmemc : c ∈ names.filterMap
        (fun n => (parseTemplateName assistant scriptType n).map (fun v => (n, v))) := by
      have := (mem_foldl_insert c _ []).mp hmemsort
      simpa using this
    rw [List.mem_filterMap] at hmemc
    obtain ⟨n, hn, hparse⟩ := hmemc
    rw [Option.map_eq_some'] at hparse
    obtain ⟨v, hv, hnv⟩ := hparse
    have hn1 : n = c.1 := by rw [← hnv]
    have hv2 : v = c.2 := by rw [← hnv]
    subst hf
    constructor
    · rw [← hn1]; exact hn
    · refine ⟨c.2, ?_, ?_⟩
      · rw [← hv2, ← hn1]; exact hv
      · intro g hg w hw
        have hgw : (g, w) ∈ names.filterMap
            (fun n => (parseTemplateName assistant scriptType n).map (fun v => (n, v))) := by
          rw [List.mem_filterMap]
          exact ⟨g, hg, by rw [hw]; rfl⟩
        have hgwsort : (g, w) ∈ sortByVersionDesc (names.filterMap
            (fun n => (parseTemplateName assistant scriptType n).map (fun v => (n, v)))) := by
          unfold sortByVersionDesc
          rw [mem_foldl_insert]
          exact Or.inr hgw
        rw [hs] at hgwsort
        rcases List.mem_cons.mp hgwsort with heq | hmem
        · have : w = c.2 := by rw [← heq]
          rw [this]
          exact vlt_irrefl c.2
        · have hpw : (sortByVersionDesc (names.filterMap
              (fun n => (parseTemplateName assistant scriptType n).map (fun v => (n, v))))).Pairwise
              (fun p q => vlt p.2 q.2 = false) :=
            pairwise_foldl_insert _ [] List.Pairwise.nil
          rw [hs, List.pairwise_cons] at hpw
          exact hpw.1 (g, w) hmem

/-- C2 witness: with candidates `v1.9.0`, a junk name and `v1.10.0`, the
returned file is `v1.10.0` (integer comparison, not string comparison), it is
a member, parses, and dominates every parsable candidate. -/
theorem find_local_template_picks_numeric_max_witness :
    find_local_template "claude" "sh"
        ["spec-kit-template-claude-sh-v1.9.0.zip", "junk.txt",
         "spec-kit-template-claude-sh-v1.10.0.zip"] =
      some "spec-kit-template-claude-sh-v1.10.0.zip" ∧
    ("spec-kit-template-claude-sh-v1.10.0.zip" ∈
        ["spec-kit-template-claude-sh-v1.9.0.zip", "junk.txt",
         "spec-kit-template-claude-sh-v1.10.0.zip"] ∧
      ∃ v, parseTemplateName "claude" "sh" "spec-kit-template-claude-sh-v1.10.0.zip" = some v ∧
        ∀ g ∈ ["spec-kit-template-claude-sh-v1.9.0.zip", "junk.txt",
            "spec-kit-template-claude-sh-v1.10.0.zip"],
          ∀ w, parseTemplateName "claude" "sh" g = some w → vlt v w = false) :=
  ⟨by rfl,
    find_local_template_picks_numeric_max "claude" "sh"
      ["spec-kit-template-claude-sh-v1.9.0.zip", "junk.txt",
       "spec-kit-template-claude-sh-v1.10.0.zip"]
      "spec-kit-template-claude-sh-v1.10.0.zip" (by rfl)⟩

/-- C3: whenever local resolution yields a candidate, the remote fetch path is
never entered, the candidate's archive path becomes the resolved template, and
the provenance metadata records source `"local"` — on every filesystem, in
both modes, whatever the remote side would have answered. -/
theorem local_candidate_skips_remote_fetch (proj cwd : FPath) (isCurrentDir : Bool)
    (localT : Option LocalT) (lt : LocalT) (remoteT : Option RemoteT)
    (mergeFn : Option MergeFn) (fs : Listing)
    (h : localT = some lt) :
    (download_and_extract_template proj cwd isCurrentDir localT remoteT mergeFn
        fs).remoteInvoked = false ∧
    (download_and_extract_template proj cwd isCurrentDir localT remoteT mergeFn
        fs).meta = some (localMetaOf lt) ∧
    (localMetaOf lt).source = "local" ∧
    (download_and_extract_template proj cwd isCurrentDir localT remoteT mergeFn
        fs).zipPath = some lt.path := by
  subst h
  refine ⟨rfl, rfl, rfl, rfl⟩

/-- C3 witness: a concrete run with a local candidate present makes no remote
call, resolves to the candidate and records local provenance. -/
theorem local_candidate_skips_remote_fetch_witness :
    (download_and_extract_template ["work", "proj"] ["work"] false
        (some ⟨["tpl.zip"], "spec-kit-template-claude-sh-v1.2.3.zip",
          [("x.txt", Entry.file (Content.text "hi"))]⟩)
        (some ⟨"remote.zip", "v9.9.9", []⟩) none
        [("work", Entry.dir []), ("tpl.zip", Entry.file (Content.text "z"))]).remoteInvoked
        = false ∧
    (download_and_extract_template ["work", "proj"] ["work"] false
        (some ⟨["tpl.zip"], "spec-kit-template-claude-sh-v1.2.3.zip",
          [("x.txt", Entry.file (Content.text "hi"))]⟩)
        (some ⟨"remote.zip", "v9.9.9", []⟩) none
        [("work", Entry.dir []), ("tpl.zip", Entry.file (Content.text "z"))]).meta
        = some (localMetaOf ⟨["tpl.zip"], "spec-kit-template-claude-sh-v1.2.3.zip",
          [("x.txt", Entry.file (Content.text "hi"))]⟩) ∧
    (localMetaOf ⟨["tpl.zip"], "spec-kit-template-claude-sh-v1.2.3.zip",
          [("x.txt", Entry.file (Content.text "hi"))]⟩).source = "local" ∧
    (download_and_extract_template ["work", "proj"] ["work"] false
        (some ⟨["tpl.zip"], "spec-kit-template-claude-sh-v1.2.3.zip",
          [("x.txt", Entry.file (Content.text "hi"))]⟩)
        (some ⟨"remote.zip", "v9.9.9", []⟩) none
        [("work", Entry.dir []), ("tpl.zip", Entry.file (Content.text "z"))]).zipPath
        = some ["tpl.zip"] :=
  local_candidate_skips_remote_fetch ["work", "proj"] ["work"] false _ _ _ none _ rfl

/-- C1: evaluation of the code at the failing input.  Fresh-directory mode
against a destination that already exists (here holding `keep.txt`) does fail
at the `mkdir` precondition (`ok = false`), but the `except`-branch rollback
(`shutil.rmtree(project_path)` guarded only by `project_path.exists()`) then
deletes the pre-existing destination tree: afterwards the destination no
longer exists, contradicting the claim that it remains in place. -/
theorem fresh_mode_rollback_deletes_preexisting_destination :
    lookupPath
        [("work", Entry.dir [("proj", Entry.dir
            [("keep.txt", Entry.file (Content.text "precious"))])]),
         ("tpl.zip", Entry.file (Content.text "zipbytes"))]
        ["work", "proj", "keep.txt"] = some (Entry.file (Content.text "precious")) ∧
    (download_and_extract_template ["work", "proj"] ["work"] false
        (some ⟨["tpl.zip"], "spec-kit-template-claude-sh-v1.2.3.zip",
          [("x.txt", Entry.file (Content.text "hi"))]⟩) none none
        [("work", Entry.dir [("proj", Entry.dir
            [("keep.txt", Entry.file (Content.text "precious"))])]),
         ("tpl.zip", Entry.file (Content.text "zipbytes"))]).ok = false ∧
    lookupPath
        (download_and_extract_template ["work", "proj"] ["work"] false
          (some ⟨["tpl.zip"], "spec-kit-template-claude-sh-v1.2.3.zip",
            [("x.txt", Entry.file (Content.text "hi"))]⟩) none none
          [("work", Entry.dir [("proj", Entry.dir
              [("keep.txt", Entry.file (Content.text "precious"))])]),
           ("tpl.zip", Entry.file (Content.text "zipbytes"))]).fs
        ["work", "proj"] = none :=
  ⟨rfl, rfl, rfl⟩

/-- C7 counterexample: a whitespace-only explicit parameter does not fall
through to the environment variables.  With `cli_token = " "` and
`GH_TOKEN = "abc"`, the code attaches no header at all (the truthy `" "`
short-circuits the `or`-chain and only then is stripped to emptiness), while
the claim's resolution rule yields the token `"abc"` and so demands a
`Bearer abc` header. -/
theorem whitespace_token_does_not_fall_through :
    github_auth_headers (some " ") ⟨some "abc", none⟩ = [] ∧
    claimedToken (some " ") ⟨some "abc", none⟩ = some "abc" ∧
    ([] : List (String × String)) ≠ [("Authorization", "Bearer abc")] :=
  ⟨rfl, rfl, by decide⟩

/-- C7 amended: both HTTP requests carry exactly `_github_auth_headers`; the
`or`-chain picks the first *non-empty* raw value among parameter, `GH_TOKEN`,
`GITHUB_TOKEN`; that single value is stripped, and an empty strip result
yields no header at all (later sources are not consulted, so a
whitespace-only value blocks the fall-through); only absent or empty-string
values fall through. -/
theorem auth_header_resolution (assistant scriptType : String) (cli : Option String)
    (env : TokenEnv) (w : GithubWorld) (pre : Option Content) :
    (download_template_from_github assistant scriptType cli env w pre).request1
        = some (github_auth_headers cli env) ∧
    (∀ h, (download_template_from_github assistant scriptType cli env w pre).request2
        = some h → h = github_auth_headers cli env) ∧
    (∀ s, cli = some s → s ≠ "" →
        github_auth_headers cli env =
          (if pyStrip s = "" then [] else [("Authorization", "Bearer " ++ pyStrip s)])) ∧
    ((cli = none ∨ cli = some "") →
      (∀ u, env.ghToken = some u → u ≠ "" →
          github_auth_headers cli env =
            (if pyStrip u = "" then [] else [("Authorization", "Bearer " ++ pyStrip u)])) ∧
      ((env.ghToken = none ∨ env.ghToken = some "") →
        (∀ u, env.githubToken = some u → u ≠ "" →
            github_auth_headers cli env =
              (if pyStrip u = "" then [] else [("Authorization", "Bearer " ++ pyStrip u)])) ∧
        ((env.githubToken = none ∨ env.githubToken = some "") →
            github_auth_headers cli env = []))) := by
  refine ⟨?_, ?_, ?_, ?_⟩
  · unfold download_template_from_github
    repeat' split
    all_goals rfl
  · intro h hreq
    unfold download_template_from_github at hreq
    repeat' split at hreq
    all_goals simp_all
  · intro s hcli hne
    subst hcli
    simp [github_auth_headers, firstRawToken, pyTruthy, hne]
  · intro hcli
    refine ⟨?_, ?_⟩
    · intro u hgh hne
      rcases hcli with rfl | rfl <;>
        simp [github_auth_headers, firstRawToken, pyTruthy, hgh, hne]
    · intro hgh
      refine ⟨?_, ?_⟩
      · intro u hgit hne
        rcases hcli with rfl | rfl <;> rcases hgh with h' | h' <;>
          simp [github_auth_headers, firstRawToken, pyTruthy, h', hgit, hne]
      · intro hgit
        rcases hcli with rfl | rfl <;> rcases hgh with h' | h' <;>
          rcases hgit with h2 | h2 <;>
          simp [github_auth_headers, firstRawToken, pyTruthy, h', h2, pyStrip]

/-- C7 witness: with an empty explicit parameter, `GH_TOKEN = " tok "` and
`GITHUB_TOKEN = "zzz"`, the attached header is `Bearer tok` (the `GH_TOKEN`
value, stripped), as the amended resolution rule dictates. -/
theorem auth_header_resolution_witness :
    github_auth_headers (some "") ⟨some " tok ", some "zzz"⟩
      = [("Authorization", "Bearer tok")] := by
  have h := (auth_header_resolution "claude" "sh" (some "")
      ⟨some " tok ", some "zzz"⟩ ⟨⟨200, true, "v1", []⟩, ⟨200, [], false⟩⟩ none).2.2.2
  have h2 := (h (Or.inr rfl)).1 " tok " rfl (by decide)
  rw [h2]
  rfl

/-- C8: whenever the asset-download request was actually issued and the
overall call failed (non-200 download status or a transport error
mid-stream), the file at the computed destination path is gone afterwards:
the partial file is unlinked before the error propagates. -/
theorem failed_download_leaves_no_partial_file (assistant scriptType : String)
    (cli : Option String) (env : TokenEnv) (w : GithubWorld) (pre : Option Content)
    (h1 : (download_template_from_github assistant scriptType cli env w pre).request2.isSome
        = true)
    (h2 : (download_template_from_github assistant scriptType cli env w pre).success = false) :
    (download_template_from_github assistant scriptType cli env w pre).destFile = none := by
  unfold download_template_from_github at h1 h2 ⊢
  repeat' split at h1
  all_goals simp_all

/-- C8 witness: a pre-existing file at the destination, an API success, and a
download that fails with status 500 leave no file at the destination path. -/
theorem failed_download_leaves_no_partial_file_witness :
    (download_template_from_github "claude" "sh" none ⟨none, none⟩
        ⟨⟨200, true, "v1.0.0", [⟨"spec-kit-template-claude-sh-v1.0.0.zip", 10, "u"⟩]⟩,
         ⟨500, ["par"], false⟩⟩
        (some (Content.text "stale"))).destFile = none :=
  failed_download_leaves_no_partial_file "claude" "sh" none ⟨none, none⟩
    ⟨⟨200, true, "v1.0.0", [⟨"spec-kit-template-claude-sh-v1.0.0.zip", 10, "u"⟩]⟩,
     ⟨500, ["par"], false⟩⟩
    (some (Content.text "stale")) (by rfl) (by rfl)

theorem takeWhile_digits_append (a r : List Char)
    (ha : ∀ ch ∈ a, ch.isDigit = true) :
    (a ++ '.' :: r).takeWhile Char.isDigit = a := by
  induction a with
  | nil => rfl
  | cons x xs ih =>
    have hx : x.isDigit = true := ha x (by simp)
    simp [List.takeWhile, hx, ih (fun ch h => ha ch (by simp [h]))]

theorem dropWhile_digits_append (a r : List Char)
    (ha : ∀ ch ∈ a, ch.isDigit = true) :
    (a ++ '.' :: r).dropWhile Char.isDigit = '.' :: r := by
  induction a with
  | nil => rfl
  | cons x xs ih =>
    have hx : x.isDigit = true := ha x (by simp)
    simp [List.dropWhile, hx, ih (fun ch h => ha ch (by simp [h]))]

theorem takeWhile_digits_all (a : List Char)
    (ha : ∀ ch ∈ a, ch.isDigit = true) : a.takeWhile Char.isDigit = a := by
  induction a with
  | nil => rfl
  | cons x xs ih =>
    have hx : x.isDigit = true := ha x (by simp)
    simp [List.takeWhile, hx, ih (fun ch h => ha ch (by simp [h]))]

theorem dropWhile_digits_all (a : List Char)
    (ha : ∀ ch ∈ a, ch.isDigit = true) : a.dropWhile Char.isDigit = [] := by
  induction a with
  | nil => rfl
  | cons x xs ih =>
    have hx : x.isDigit = true := ha x (by simp)
    simp [List.dropWhile, hx, ih (fun ch h => ha ch (by simp [h]))]

theorem splitTriple_of_digits (a b c : List Char)
    (ha : ∀ ch ∈ a, ch.isDigit = true) (hb : ∀ ch ∈ b, ch.isDigit = true)
    (hc : ∀ ch ∈ c, ch.isDigit = true)
    (ha' : a.isEmpty = false) (hb' : b.isEmpty = false) (hc' : c.isEmpty = false) :
    splitTriple (a ++ '.' :: (b ++ '.' :: c)) = some ((a, b, c), []) := by
  unfold splitTriple
  simp only [List.span_eq_take_drop]
  rw [takeWhile_digits_append a _ ha, dropWhile_digits_append a _ ha]
  simp only [ha', Bool.false_eq_true, if_false]
  rw [takeWhile_digits_append b _ hb, dropWhile_digits_append b _ hb]
  simp only [hb', Bool.false_eq_true, if_false]
  rw [takeWhile_digits_all c hc, dropWhile_digits_all c hc]
  simp [hc']

theorem splitTriple_digits (cs : List Char) (a b c r : List Char)
    (h : splitTriple cs = some ((a, b, c), r)) :
    (∀ ch ∈ a, ch.isDigit = true) ∧ (∀ ch ∈ b, ch.isDigit = true) ∧
    (∀ ch ∈ c, ch.isDigit = true) ∧
    a.isEmpty = false ∧ b.isEmpty = false ∧ c.isEmpty = false := by
  unfold splitTriple at h
  simp only [List.span_eq_take_drop] at h
  split at h
  · exact absurd h (by simp)
  · split at h
    · split at h
      · exact absurd h (by simp)
      · split at h
        · split at h
          · exact absurd h (by simp)
          · injection h with h1
            injection h1 with hA hB
            injection hA with hA1 hA2
            injection hA2 with hB1 hB2
            subst hA1
            subst hB1
            subst hB2
            refine ⟨fun ch hch => List.mem_takeWhile_imp hch,
              fun ch hch => List.mem_takeWhile_imp hch,
              fun ch hch => List.mem_takeWhile_imp hch, ?_, ?_, ?_⟩ <;> simp_all
        · exact absurd h (by simp)
    · exact absurd h (by simp)

theorem data_v_mk (l : List Char) : ("v" ++ String.mk l).data = 'v' :: l := rfl

theorem isVersionTag_of_group (a b c : List Char)
    (ha : ∀ ch ∈ a, ch.isDigit = true) (hb : ∀ ch ∈ b, ch.isDigit = true)
    (hc : ∀ ch ∈ c, ch.isDigit = true)
    (ha' : a.isEmpty = false) (hb' : b.isEmpty = false) (hc' : c.isEmpty = false) :
    isVersionTag ("v" ++ String.mk (a ++ '.' :: (b ++ '.' :: c))) = true := by
  show (match splitTriple (a ++ '.' :: (b ++ '.' :: c)) with
    | some (_, []) => true
    | _ => false) = true
  rw [splitTriple_of_digits a b c ha hb hc ha' hb' hc']

theorem searchVersionGroup_go_sound :
    ∀ (cs : List Char) (g : String), searchVersionGroup.go cs = some g →
      ∃ a b c, g = String.mk (a ++ '.' :: (b ++ '.' :: c)) ∧
        (∀ ch ∈ a, ch.isDigit = true) ∧ (∀ ch ∈ b, ch.isDigit = true) ∧
        (∀ ch ∈ c, ch.isDigit = true) ∧
        a.isEmpty = false ∧ b.isEmpty = false ∧ c.isEmpty = false := by
  intro cs
  induction cs with
  | nil => intro g h; exact absurd h (by simp [searchVersionGroup.go])
  | cons ch rest ih =>
    intro g h
    unfold searchVersionGroup.go at h
    split at h
    · split at h
      · split at h
        · rename_i heq
          obtain rfl := (Option.some_inj.mp h).symm
          have hd := splitTriple_digits _ _ _ _ _ heq
          exact ⟨_, _, _, rfl, hd.1, hd.2.1, hd.2.2.1, hd.2.2.2.1, hd.2.2.2.2.1,
            hd.2.2.2.2.2⟩
        · exact ih g h
      · exact ih g h
    · exact ih g h

theorem searchVersionGroup_sound (name : String) (g : String)
    (h : searchVersionGroup name = some g) :
    ∃ a b c, g = String.mk (a ++ '.' :: (b ++ '.' :: c)) ∧
      (∀ ch ∈ a, ch.isDigit = true) ∧ (∀ ch ∈ b, ch.isDigit = true) ∧
      (∀ ch ∈ c, ch.isDigit = true) ∧
      a.isEmpty = false ∧ b.isEmpty = false ∧ c.isEmpty = false :=
  searchVersionGroup_go_sound name.data g h

/-- C9 counterexample: a local template whose filename lacks a valid trailing
`-vX.Y.Z.zip` suffix gets release tag `"vunknown"` (the code interpolates the
sentinel into `f"v{version}"`), which is neither of the two formats the claim
allows: it is not `"unknown"` and it is not `vX.Y.Z`. -/
theorem local_release_sentinel_is_vunknown :
    (localMetaOf ⟨["tpl.zip"], "spec-kit-template-claude-sh.zip", []⟩).release
      = "vunknown" ∧
    isVersionTag "vunknown" = false ∧
    ("vunknown" : String) ≠ "unknown" :=
  ⟨rfl, rfl, by decide⟩

/-- C9 amended: the release tag of every locally resolved template is
re-derived from the filename's trailing version suffix and always has the
shape `vX.Y.Z`, or degrades to the sentinel `"vunknown"` (the `"unknown"`
sentinel prefixed by the `v` interpolation) when the filename lacks a valid
trailing `-vX.Y.Z.zip` suffix — never failing either way. -/
theorem local_release_tag_format (lt : LocalT) :
    isVersionTag (localMetaOf lt).release = true ∨ (localMetaOf lt).release = "vunknown" := by
  show isVersionTag (localRelease lt.name) = true ∨ localRelease lt.name = "vunknown"
  cases hs : searchVersionGroup lt.name with
  | none =>
    right
    simp [localRelease, hs]
  | some g =>
    left
    obtain ⟨a, b, c, rfl, ha, hb, hc, ha', hb', hc'⟩ := searchVersionGroup_sound lt.name g hs
    simp only [localRelease, hs, Option.getD_some]
    exact isVersionTag_of_group a b c ha hb hc ha' hb' hc'

/-- C5: in merge mode with `.vscode/settings.json` present on both sides,
the post-extraction file is the serialized output of the injected JSON-merge
collaborator whenever one is supplied and it succeeds; it equals the
archive's version verbatim when no collaborator is supplied; and when the
collaborator raises, the run falls back to an overwrite-copy of the archive's
version and still completes successfully — it never aborts. -/
theorem vscode_settings_merge_semantics (cD cA : Content) (aObj : JsonObj)
    (hparse : parseJson cA = some aObj) :
    (∀ (m : MergeFn) (merged : JsonObj), m cD aObj = some merged →
      (vscodeMergeRun cD cA (some m)).ok = true ∧
      lookupPath (vscodeMergeRun cD cA (some m)).fs ["work", ".vscode", "settings.json"]
        = some (Entry.file (Content.jsonObj merged))) ∧
    ((vscodeMergeRun cD cA none).ok = true ∧
      lookupPath (vscodeMergeRun cD cA none).fs ["work", ".vscode", "settings.json"]
        = some (Entry.file cA)) ∧
    (∀ m : MergeFn, m cD aObj = none →
      (vscodeMergeRun cD cA (some m)).ok = true ∧
      lookupPath (vscodeMergeRun cD cA (some m)).fs ["work", ".vscode", "settings.json"]
        = some (Entry.file cA)) := by
  refine ⟨fun m merged hm => ⟨?_, ?_⟩, ⟨?_, ?_⟩, fun m hm => ⟨?_, ?_⟩⟩ <;>
    simp [vscodeMergeRun, download_and_extract_template, extractAndCleanup, extractPhase,
      mergeExtract, mergeItems, mergeTopItem, mergeFiles, mergeStepFile,
      handle_vscode_settings, filesOf, isVscodeTarget, setPath, getEntry, setEntry,
      removePath, removeEntry, lookupPath, pathExists, cleanupStep, localMetaOf, *]

/-- C5 witness: with `{"a": 1}` at the destination, `{"b": 2}` in the archive
and a union-building collaborator, the post-extraction file holds the union
`{"a": 1, "b": 2}`; with no collaborator it holds `{"b": 2}` verbatim; with a
collaborator that raises it also holds `{"b": 2}` and the run succeeds. -/
theorem vscode_settings_merge_semantics_witness :
    ((vscodeMergeRun (Content.jsonObj [("a", 1)]) (Content.jsonObj [("b", 2)])
        (some (fun dc ns => (parseJson dc).map (fun dj => dj ++ ns)))).ok = true ∧
      lookupPath (vscodeMergeRun (Content.jsonObj [("a", 1)]) (Content.jsonObj [("b", 2)])
          (some (fun dc ns => (parseJson dc).map (fun dj => dj ++ ns)))).fs
        ["work", ".vscode", "settings.json"]
        = some (Entry.file (Content.jsonObj [("a", 1), ("b", 2)]))) ∧
    ((vscodeMergeRun (Content.jsonObj [("a", 1)]) (Content.jsonObj [("b", 2)]) none).ok
        = true ∧
      lookupPath
          (vscodeMergeRun (Content.jsonObj [("a", 1)]) (Content.jsonObj [("b", 2)]) none).fs
        ["work", ".vscode", "settings.json"]
        = some (Entry.file (Content.jsonObj [("b", 2)]))) ∧
    ((vscodeMergeRun (Content.jsonObj [("a", 1)]) (Content.jsonObj [("b", 2)])
        (some (fun _ _ => none))).ok = true ∧
      lookupPath (vscodeMergeRun (Content.jsonObj [("a", 1)]) (Content.jsonObj [("b", 2)])
          (some (fun _ _ => none))).fs
        ["work", ".vscode", "settings.json"]
        = some (Entry.file (Content.jsonObj [("b", 2)]))) :=
  ⟨(vscode_settings_merge_semantics (Content.jsonObj [("a", 1)]) (Content.jsonObj [("b", 2)])
      [("b", 2)] (by rfl)).1 _ [("a", 1), ("b", 2)] (by rfl),
   (vscode_settings_merge_semantics (Content.jsonObj [("a", 1)]) (Content.jsonObj [("b", 2)])
      [("b", 2)] (by rfl)).2.1,
   (vscode_settings_merge_semantics (Content.jsonObj [("a", 1)]) (Content.jsonObj [("b", 2)])
      [("b", 2)] (by rfl)).2.2 _ (by rfl)⟩

/-- C6: in fresh-directory mode, an archive extracting to exactly one
top-level item that is a directory (`d`, arbitrary contents `sub`) ends with
`sub` directly at the destination's root — the run succeeds, the destination
equals the nested directory's contents, and (whenever `sub` has no child
named `d`) no nested subdirectory of that name remains.  The result is
produced by the move-to-sibling-temporary, remove-empty-destination,
rename-into-place sequence embedded in `flattenNested`. -/
theorem fresh_mode_flattens_single_nested_dir (d : String) (sub : Listing) (z : Content) :
    (freshFlattenRun d sub z).ok = true ∧
    lookupPath (freshFlattenRun d sub z).fs ["work", "proj"] = some (Entry.dir sub) ∧
    (getEntry sub d = none →
      lookupPath (freshFlattenRun d sub z).fs ["work", "proj", d] = none) := by
  refine ⟨?_, ?_, fun h => ?_⟩ <;>
    simp [freshFlattenRun, download_and_extract_template, extractAndCleanup, extractPhase,
      freshExtract, extractAll, flattenNested, movePath, tempOf, lastName, setPath,
      getEntry, setEntry, removePath, removeEntry, lookupPath, pathExists, cleanupStep,
      localMetaOf, *]

/-- C6 witness: an archive holding a single top-level directory `proj/` with a
file and a subdirectory inside materializes as those contents directly at the
destination root, with no `proj` subdirectory remaining. -/
theorem fresh_mode_flattens_single_nested_dir_witness :
    (freshFlattenRun "proj" [("a.txt", Entry.file (Content.text "A")),
        ("sub", Entry.dir [("b.txt", Entry.file (Content.text "B"))])]
      (Content.text "z")).ok = true ∧
    lookupPath (freshFlattenRun "proj" [("a.txt", Entry.file (Content.text "A")),
        ("sub", Entry.dir [("b.txt", Entry.file (Content.text "B"))])]
        (Content.text "z")).fs ["work", "proj"]
      = some (Entry.dir [("a.txt", Entry.file (Content.text "A")),
          ("sub", Entry.dir [("b.txt", Entry.file (Content.text "B"))])]) ∧
    lookupPath (freshFlattenRun "proj" [("a.txt", Entry.file (Content.text "A")),
        ("sub", Entry.dir [("b.txt", Entry.file (Content.text "B"))])]
        (Content.text "z")).fs ["work", "proj", "proj"] = none :=
  ⟨(fresh_mode_flattens_single_nested_dir "proj" _ _).1,
   (fresh_mode_flattens_single_nested_dir "proj" _ _).2.1,
   (fresh_mode_flattens_single_nested_dir "proj" _ _).2.2 (by rfl)⟩

/-- C10: in merge mode the JSON-merge special case fires for a
`settings.json` under a `.vscode` parent at depth inside a colliding
top-level directory (here `tools/s/.vscode/settings.json` for an arbitrary
intermediate directory name `s`), not only at the destination root's
`.vscode/settings.json`; while a top-level directory with no same-named
counterpart at the destination is copied wholesale (`copytree`) — its
arbitrary subtree `T` arrives verbatim, so nothing inside it (not even a
`.vscode/settings.json`) receives the merge treatment. -/
theorem vscode_merge_applies_at_depth_and_copytree_is_verbatim (s : String)
    (cD cA : Content) (aObj merged : JsonObj) (m : MergeFn) (T : Listing)
    (hparse : parseJson cA = some aObj) (hm : m cD aObj = some merged) :
    (deepMergeRun s cD cA T (some m)).ok = true ∧
    lookupPath (deepMergeRun s cD cA T (some m)).fs
      ["work", "tools", s, ".vscode", "settings.json"]
      = some (Entry.file (Content.jsonObj merged)) ∧
    lookupPath (deepMergeRun s cD cA T (some m)).fs ["work", "fresh"]
      = some (Entry.dir T) := by
  refine ⟨?_, ?_, ?_⟩ <;>
    simp [deepMergeRun, download_and_extract_template, extractAndCleanup, extractPhase,
      mergeExtract, mergeItems, mergeTopItem, mergeFiles, mergeStepFile,
      handle_vscode_settings, filesOf, isVscodeTarget, setPath, getEntry, setEntry,
      removePath, removeEntry, lookupPath, pathExists, cleanupStep, localMetaOf, hparse,
      hm]

/-- C10 witness: with intermediate directory `sub`, destination settings
`{"a": 1}`, archive settings `{"b": 2}` and a union-building collaborator,
the deep `tools/sub/.vscode/settings.json` ends up merged to
`{"a": 1, "b": 2}`, while the non-colliding `fresh` directory — itself
containing a `.vscode/settings.json` — is copied verbatim. -/
theorem vscode_merge_applies_at_depth_witness :
    (deepMergeRun "sub" (Content.jsonObj [("a", 1)]) (Content.jsonObj [("b", 2)])
        [(".vscode", Entry.dir [("settings.json", Entry.file (Content.jsonObj [("c", 3)]))])]
        (some (fun dc ns => (parseJson dc).map (fun dj => dj ++ ns)))).ok = true ∧
    lookupPath (deepMergeRun "sub" (Content.jsonObj [("a", 1)]) (Content.jsonObj [("b", 2)])
        [(".vscode", Entry.dir [("settings.json", Entry.file (Content.jsonObj [("c", 3)]))])]
        (some (fun dc ns => (parseJson dc).map (fun dj => dj ++ ns)))).fs
      ["work", "tools", "sub", ".vscode", "settings.json"]
      = some (Entry.file (Content.jsonObj [("a", 1), ("b", 2)])) ∧
    lookupPath (deepMergeRun "sub" (Content.jsonObj [("a", 1)]) (Content.jsonObj [("b", 2)])
        [(".vscode", Entry.dir [("settings.json", Entry.file (Content.jsonObj [("c", 3)]))])]
        (some (fun dc ns => (parseJson dc).map (fun dj => dj ++ ns)))).fs
      ["work", "fresh"]
      = some (Entry.dir [(".vscode", Entry.dir
          [("settings.json", Entry.file (Content.jsonObj [("c", 3)]))])]) :=
  vscode_merge_applies_at_depth_and_copytree_is_verbatim "sub"
    (Content.jsonObj [("a", 1)]) (Content.jsonObj [("b", 2)]) [("b", 2)]
    [("a", 1), ("b", 2)] _ _ (by rfl) (by rfl)

theorem getEntry_setEntry_self (es : Listing) (k : String) (v : Entry) :
    getEntry (setEntry es k v) k = some v := by
  induction es with
  | nil => simp [setEntry, getEntry]
  | cons p rest ih =>
    by_cases h : p.1 = k
    · simp [setEntry, h, getEntry]
    · simp [setEntry, getEntry, h, ih]

theorem getEntry_setEntry_ne (es : Listing) (k : String) (v : Entry) (k' : String)
    (h : k' ≠ k) : getEntry (setEntry es k v) k' = getEntry es k' := by
  induction es with
  | nil => simp [setEntry, getEntry, Ne.symm h]
  | cons p rest ih =>
    by_cases hp : p.1 = k
    · simp [setEntry, hp, getEntry, Ne.symm h]
    · simp [setEntry, getEntry, hp, ih]

theorem getEntry_removeEntry_self (es : Listing) (k : String) :
    getEntry (removeEntry es k) k = none := by
  induction es with
  | nil => rfl
  | cons p rest ih =>
    by_cases hp : p.1 = k
    · simpa [removeEntry, List.filter_cons, hp] using ih
    · simpa [removeEntry, List.filter_cons, getEntry, hp] using ih

theorem getEntry_removeEntry_ne (es : Listing) (k k' : String) (h : k' ≠ k) :
    getEntry (removeEntry es k) k' = getEntry es k' := by
  induction es with
  | nil => rfl
  | cons p rest ih =>
    obtain ⟨a, b⟩ := p
    by_cases hp : a = k
    · subst hp
      have h1 : removeEntry ((a, b) :: rest) a = removeEntry rest a := by
        simp [removeEntry, List.filter_cons]
      rw [h1, ih]
      simp [getEntry, Ne.symm h]
    · have h1 : removeEntry ((a, b) :: rest) k = (a, b) :: removeEntry rest k := by
        simp [removeEntry, List.filter_cons, hp]
      rw [h1]
      simp [getEntry, ih]

theorem setPath_getEntry_ne (es : Listing) (p0 : String) (ps : List String) (v : Entry)
    (es' : Listing) (h : setPath es (p0 :: ps) v = some es') (k : String) (hk : k ≠ p0) :
    getEntry es' k = getEntry es k := by
  cases ps with
  | nil =>
    unfold setPath at h
    split at h
    all_goals cases h
    all_goals exact getEntry_setEntry_ne es p0 _ k hk
  | cons k2 ks =>
    unfold setPath at h
    split at h
    · cases h
    · rw [Option.map_eq_some'] at h
      obtain ⟨s2, _, h2⟩ := h
      rw [← h2]
      exact getEntry_setEntry_ne es p0 _ k hk
    · rw [Option.map_eq_some'] at h
      obtain ⟨s2, _, h2⟩ := h
      rw [← h2]
      exact getEntry_setEntry_ne es p0 _ k hk

theorem removePath_getEntry_ne (es : Listing) (p0 : String) (ps : List String)
    (k : String) (hk : k ≠ p0) :
    getEntry (removePath es (p0 :: ps)) k = getEntry es k := by
  cases ps with
  | nil => exact getEntry_removeEntry_ne es p0 k hk
  | cons k2 ks =>
    unfold removePath
    split
    · exact getEntry_setEntry_ne es p0 _ k hk
    · rfl

theorem lookupPath_congr (es es' : Listing) (q0 : String) (qs : List String)
    (h : getEntry es' q0 = getEntry es q0) :
    lookupPath es' (q0 :: qs) = lookupPath es (q0 :: qs) := by
  simp only [lookupPath]
  rw [h]

theorem setPath_lookup_self (p : FPath) : ∀ (es : Listing) (v : Entry) (es' : Listing),
    setPath es p v = some es' → lookupPath es' p = some v := by
  induction p with
  | nil => intro es v es' h; cases h
  | cons k ks ih =>
    intro es v es' h
    cases ks with
    | nil =>
      unfold setPath at h
      split at h
      all_goals cases h
      all_goals simp [lookupPath, getEntry_setEntry_self]
    | cons k2 ks' =>
      unfold setPath at h
      split at h
      · cases h
      · rw [Option.map_eq_some'] at h
        obtain ⟨s2, hs2, h2⟩ := h
        rw [← h2]
        simp only [lookupPath, getEntry_setEntry_self]
        exact ih _ _ _ hs2
      · rw [Option.map_eq_some'] at h
        obtain ⟨s2, hs2, h2⟩ := h
        rw [← h2]
        simp only [lookupPath, getEntry_setEntry_self]
        exact ih _ _ _ hs2

theorem removePath_lookup_self (p : FPath) (hne : p ≠ []) :
    ∀ es : Listing, lookupPath (removePath es p) p = none := by
  induction p with
  | nil => exact absurd rfl hne
  | cons k ks ih =>
    intro es
    cases ks with
    | nil => simp [removePath, lookupPath, getEntry_removeEntry_self]
    | cons k2 ks' =>
      unfold removePath
      split
      · rename_i s hs
        simp only [lookupPath, getEntry_setEntry_self]
        exact ih (by simp) s
      · rename_i hno
        simp only [lookupPath]
        cases hg : getEntry es k with
        | none => rfl
        | some e =>
          cases e with
          | file c => rfl
          | dir s => exact absurd hg (hno s)



theorem extractAll_getEntry_frame (p0 : String) (ps : List String) (k : String)
    (hk : k ≠ p0) :
    ∀ (tree : Listing) (fs : Listing),
      getEntry (resultFs (extractAll fs (p0 :: ps) tree)) k = getEntry fs k := by
  intro tree
  induction tree with
  | nil => intro fs; rfl
  | cons it rest ih =>
    intro fs
    obtain ⟨n, e⟩ := it
    unfold extractAll
    cases hs : setPath fs ((p0 :: ps) ++ [n]) e with
    | none => rfl
    | some fs1 =>
      have h1 : getEntry fs1 k = getEntry fs k :=
        setPath_getEntry_ne fs p0 (ps ++ [n]) e fs1 hs k hk
      rw [ih fs1, h1]

theorem movePath_getEntry_frame (fs : Listing) (s0 d0 : String) (ss ds : List String)
    (k : String) (hks : k ≠ s0) (hkd : k ≠ d0) :
    getEntry (resultFs (movePath fs (s0 :: ss) (d0 :: ds))) k = getEntry fs k := by
  unfold movePath
  cases hsrc : lookupPath fs (s0 :: ss) with
  | none => rfl
  | some e =>
    cases hdst : lookupPath fs (d0 :: ds) with
    | none =>
      show getEntry (resultFs (match setPath fs (d0 :: ds) e with
        | none => Except.error fs
        | some fs1 => Except.ok (removePath fs1 (s0 :: ss)))) k = getEntry fs k
      cases hset : setPath fs (d0 :: ds) e with
      | none => rfl
      | some fs1 =>
        show getEntry (removePath fs1 (s0 :: ss)) k = getEntry fs k
        rw [removePath_getEntry_ne fs1 s0 ss k hks]
        exact setPath_getEntry_ne fs d0 ds e fs1 hset k hkd
    | some e2 =>
      cases e2 with
      | file c =>
        show getEntry (resultFs (match setPath fs (d0 :: ds) e with
          | none => Except.error fs
          | some fs1 => Except.ok (removePath fs1 (s0 :: ss)))) k = getEntry fs k
        cases hset : setPath fs (d0 :: ds) e with
        | none => rfl
        | some fs1 =>
          show getEntry (removePath fs1 (s0 :: ss)) k = getEntry fs k
          rw [removePath_getEntry_ne fs1 s0 ss k hks]
          exact setPath_getEntry_ne fs d0 ds e fs1 hset k hkd
      | dir s =>
        show getEntry (resultFs (
          if pathExists fs ((d0 :: ds) ++ [lastName (s0 :: ss)]) then Except.error fs
          else match setPath fs ((d0 :: ds) ++ [lastName (s0 :: ss)]) e with
            | none => Except.error fs
            | some fs1 => Except.ok (removePath fs1 (s0 :: ss)))) k = getEntry fs k
        by_cases hex : pathExists fs ((d0 :: ds) ++ [lastName (s0 :: ss)]) = true
        · rw [if_pos hex]
          rfl
        · rw [if_neg hex]
          cases hset : setPath fs ((d0 :: ds) ++ [lastName (s0 :: ss)]) e with
          | none => rfl
          | some fs1 =>
            show getEntry (removePath fs1 (s0 :: ss)) k = getEntry fs k
            rw [removePath_getEntry_ne fs1 s0 ss k hks]
            exact setPath_getEntry_ne fs d0 (ds ++ [lastName (s0 :: ss)]) e fs1 hset k hkd

theorem flattenNested_getEntry_frame (fs : Listing) (p0 t0 : String) (ps ts : List String)
    (d k : String) (htemp : tempOf (p0 :: ps) = t0 :: ts)
    (hkp : k ≠ p0) (hkt : k ≠ t0) :
    getEntry (resultFs (flattenNested fs (p0 :: ps) d)) k = getEntry fs k := by
  unfold flattenNested
  rw [htemp]
  simp only [List.cons_append]
  cases hmv : movePath fs (p0 :: (ps ++ [d])) (t0 :: ts) with
  | error efs =>
    have h0 := movePath_getEntry_frame fs p0 t0 (ps ++ [d]) ts k hkp hkt
    rw [hmv] at h0
    exact h0
  | ok fs1 =>
    have h1 : getEntry fs1 k = getEntry fs k := by
      have h0 := movePath_getEntry_frame fs p0 t0 (ps ++ [d]) ts k hkp hkt
      rw [hmv] at h0
      exact h0
    show getEntry (resultFs (match lookupPath fs1 (p0 :: ps) with
      | some (Entry.dir []) =>
        movePath (removePath fs1 (p0 :: ps)) (t0 :: ts) (p0 :: ps)
      | _ => Except.error fs1)) k = getEntry fs k
    cases hlp : lookupPath fs1 (p0 :: ps) with
    | none => exact h1
    | some e =>
      cases e with
      | file c => exact h1
      | dir l =>
        cases l with
        | nil =>
          have h2 : getEntry (removePath fs1 (p0 :: ps)) k = getEntry fs1 k :=
            removePath_getEntry_ne fs1 p0 ps k hkp
          have h3 := movePath_getEntry_frame (removePath fs1 (p0 :: ps)) t0 p0 ts ps k hkt hkp
          exact h3.trans (h2.trans h1)
        | cons hd tl => exact h1

theorem freshExtract_getEntry_frame (fs : Listing) (p0 t0 : String) (ps ts : List String)
    (tree : Listing) (k : String) (htemp : tempOf (p0 :: ps) = t0 :: ts)
    (hkp : k ≠ p0) (hkt : k ≠ t0) :
    getEntry (resultFs (freshExtract fs (p0 :: ps) tree)) k = getEntry fs k := by
  unfold freshExtract
  by_cases hex : pathExists fs (p0 :: ps) = true
  · rw [if_pos hex]
    rfl
  · rw [if_neg hex]
    cases hset : setPath fs (p0 :: ps) (Entry.dir []) with
    | none => rfl
    | some fs1 =>
      have h1 : getEntry fs1 k = getEntry fs k :=
        setPath_getEntry_ne fs p0 ps _ fs1 hset k hkp
      show getEntry (resultFs (match extractAll fs1 (p0 :: ps) tree with
        | Except.error e => Except.error e
        | Except.ok fs2 =>
          match lookupPath fs2 (p0 :: ps) with
          | some (Entry.dir [(d, Entry.dir _)]) => flattenNested fs2 (p0 :: ps) d
          | _ => Except.ok fs2)) k = getEntry fs k
      cases hea : extractAll fs1 (p0 :: ps) tree with
      | error e =>
        have h0 := extractAll_getEntry_frame p0 ps k hkp tree fs1
        rw [hea] at h0
        exact h0.trans h1
      | ok fs2 =>
        have h2 : getEntry fs2 k = getEntry fs k := by
          have h0 := extractAll_getEntry_frame p0 ps k hkp tree fs1
          rw [hea] at h0
          exact h0.trans h1
        show getEntry (resultFs (match lookupPath fs2 (p0 :: ps) with
          | some (Entry.dir [(d, Entry.dir _)]) => flattenNested fs2 (p0 :: ps) d
          | _ => Except.ok fs2)) k = getEntry fs k
        cases hlp : lookupPath fs2 (p0 :: ps) with
        | none => exact h2
        | some e =>
          cases e with
          | file c => exact h2
          | dir l =>
            cases l with
            | nil => exact h2
            | cons hd tl =>
              obtain ⟨dn, ent⟩ := hd
              cases ent with
              | file c => exact h2
              | dir sub =>
                cases tl with
                | nil =>
                  exact (flattenNested_getEntry_frame fs2 p0 t0 ps ts dn k htemp
                    hkp hkt).trans h2
                | cons hd2 tl2 => exact h2

theorem handle_vscode_settings_getEntry_frame (fs : Listing) (f0 : String)
    (fp : List String) (cArch : Content) (mf : Option MergeFn) (fs2 : Listing)
    (k : String) (hk : k ≠ f0)
    (h : handle_vscode_settings fs (f0 :: fp) cArch mf = some fs2) :
    getEntry fs2 k = getEntry fs k := by
  unfold handle_vscode_settings at h
  split at h
  · cases h
  · split at h
    · split at h
      · exact setPath_getEntry_ne fs f0 fp _ fs2 h k hk
      · exact setPath_getEntry_ne fs f0 fp _ fs2 h k hk
    · exact setPath_getEntry_ne fs f0 fp _ fs2 h k hk

theorem mergeStepFile_getEntry_frame (fs : Listing) (p0 : String) (pp : List String)
    (rel : FPath × Content) (mf : Option MergeFn) (k : String) (hk : k ≠ p0) :
    getEntry (resultFs (mergeStepFile fs (p0 :: pp) rel mf)) k = getEntry fs k := by
  unfold mergeStepFile
  simp only [List.cons_append]
  split
  · cases hh : handle_vscode_settings fs (p0 :: (pp ++ rel.1)) rel.2 mf with
    | none => rfl
    | some fs1 =>
      show getEntry fs1 k = getEntry fs k
      exact handle_vscode_settings_getEntry_frame fs p0 (pp ++ rel.1) rel.2 mf fs1 k hk hh
  · cases hh : setPath fs (p0 :: (pp ++ rel.1)) (Entry.file rel.2) with
    | none => rfl
    | some fs1 =>
      show getEntry fs1 k = getEntry fs k
      exact setPath_getEntry_ne fs p0 (pp ++ rel.1) _ fs1 hh k hk

theorem mergeFiles_getEntry_frame (p0 : String) (pp : List String) (mf : Option MergeFn)
    (k : String) (hk : k ≠ p0) :
    ∀ (files : List (FPath × Content)) (fs : Listing),
      getEntry (resultFs (mergeFiles fs (p0 :: pp) files mf)) k = getEntry fs k := by
  intro files
  induction files with
  | nil => intro fs; rfl
  | cons f rest ih =>
    intro fs
    unfold mergeFiles
    cases hst : mergeStepFile fs (p0 :: pp) f mf with
    | error e =>
      have h0 := mergeStepFile_getEntry_frame fs p0 pp f mf k hk
      rw [hst] at h0
      exact h0
    | ok fs1 =>
      have h0 := mergeStepFile_getEntry_frame fs p0 pp f mf k hk
      rw [hst] at h0
      show getEntry (resultFs (mergeFiles fs1 (p0 :: pp) rest mf)) k = getEntry fs k
      rw [ih fs1]
      exact h0

theorem mergeTopItem_getEntry_frame (fs : Listing) (p0 : String) (pp : List String)
    (item : String × Entry) (mf : Option MergeFn) (k : String) (hk : k ≠ p0) :
    getEntry (resultFs (mergeTopItem fs (p0 :: pp) item mf)) k = getEntry fs k := by
  unfold mergeTopItem
  simp only [List.cons_append]
  obtain ⟨n, e⟩ := item
  cases e with
  | file c =>
    show getEntry (resultFs (match setPath fs (p0 :: (pp ++ [n])) (Entry.file c) with
      | none => Except.error fs
      | some fs1 => Except.ok fs1)) k = getEntry fs k
    cases hh : setPath fs (p0 :: (pp ++ [n])) (Entry.file c) with
    | none => rfl
    | some fs1 =>
      show getEntry fs1 k = getEntry fs k
      exact setPath_getEntry_ne fs p0 (pp ++ [n]) _ fs1 hh k hk
  | dir sub =>
    show getEntry (resultFs (
      if pathExists fs (p0 :: (pp ++ [n])) = true then
        mergeFiles fs (p0 :: (pp ++ [n])) (filesOf sub) mf
      else
        match setPath fs (p0 :: (pp ++ [n])) (Entry.dir sub) with
        | none => Except.error fs
        | some fs1 => Except.ok fs1)) k = getEntry fs k
    by_cases hex : pathExists fs (p0 :: (pp ++ [n])) = true
    · rw [if_pos hex]
      exact mergeFiles_getEntry_frame p0 (pp ++ [n]) mf k hk (filesOf sub) fs
    · rw [if_neg hex]
      cases hh : setPath fs (p0 :: (pp ++ [n])) (Entry.dir sub) with
      | none => rfl
      | some fs1 =>
        show getEntry fs1 k = getEntry fs k
        exact setPath_getEntry_ne fs p0 (pp ++ [n]) _ fs1 hh k hk

theorem mergeItems_getEntry_frame (p0 : String) (pp : List String) (mf : Option MergeFn)
    (k : String) (hk : k ≠ p0) :
    ∀ (items : Listing) (fs : Listing),
      getEntry (resultFs (mergeItems fs (p0 :: pp) items mf)) k = getEntry fs k := by
  intro items
  induction items with
  | nil => intro fs; rfl
  | cons it rest ih =>
    intro fs
    unfold mergeItems
    cases hst : mergeTopItem fs (p0 :: pp) it mf with
    | error e =>
      have h0 := mergeTopItem_getEntry_frame fs p0 pp it mf k hk
      rw [hst] at h0
      exact h0
    | ok fs1 =>
      have h0 := mergeTopItem_getEntry_frame fs p0 pp it mf k hk
      rw [hst] at h0
      show getEntry (resultFs (mergeItems fs1 (p0 :: pp) rest mf)) k = getEntry fs k
      rw [ih fs1]
      exact h0

theorem mergeExtract_getEntry_frame (fs : Listing) (p0 : String) (pp : List String)
    (tree : Listing) (mf : Option MergeFn) (k : String) (hk : k ≠ p0) :
    getEntry (resultFs (mergeExtract fs (p0 :: pp) tree mf)) k = getEntry fs k := by
  unfold mergeExtract
  exact mergeItems_getEntry_frame p0 pp mf k hk _ fs

theorem extractPhase_getEntry_frame (icd : Bool) (fs : Listing) (p0 t0 : String)
    (ps ts : List String) (tree : Listing) (mf : Option MergeFn) (k : String)
    (htemp : tempOf (p0 :: ps) = t0 :: ts) (hkp : k ≠ p0) (hkt : k ≠ t0) :
    getEntry (resultFs (extractPhase icd fs (p0 :: ps) tree mf)) k = getEntry fs k := by
  unfold extractPhase
  cases icd with
  | true => exact mergeExtract_getEntry_frame fs p0 ps tree mf k hkp
  | false => exact freshExtract_getEntry_frame fs p0 t0 ps ts tree k htemp hkp hkt

/-- C4: at the end of every materialization run in which a template was
resolved — whether extraction succeeded or failed, in either mode — the
archive file is deleted exactly when the provenance records source
`"github"`: a locally resolved archive (source `"local"`) is still at its
path with its original contents afterwards, while a freshly downloaded
archive is gone from its path (the head-component disjointness hypotheses
say the archive does not live inside the destination or the flatten
temporary). -/
theorem archive_cleanup_iff_provenance (p0 t0 : String) (ps ts : List String)
    (htemp : tempOf (p0 :: ps) = t0 :: ts)
    (isCurrentDir : Bool) (cwd : FPath) (mf : Option MergeFn) (fs : Listing) :
    (∀ (lt : LocalT) (z0 : String) (zs : List String) (c : Content) (rT : Option RemoteT),
      lt.path = z0 :: zs → z0 ≠ p0 → z0 ≠ t0 →
      lookupPath fs lt.path = some (Entry.file c) →
      lookupPath (download_and_extract_template (p0 :: ps) cwd isCurrentDir
          (some lt) rT mf fs).fs lt.path = some (Entry.file c)) ∧
    (∀ (rt : RemoteT) (c0 : String) (cs : List String) (fsDl : Listing),
      cwd = c0 :: cs → c0 ≠ p0 → c0 ≠ t0 →
      setPath fs (cwd ++ [rt.filename]) (Entry.file (Content.text rt.filename))
        = some fsDl →
      lookupPath (download_and_extract_template (p0 :: ps) cwd isCurrentDir
          none (some rt) mf fs).fs (cwd ++ [rt.filename]) = none) := by
  constructor
  · intro lt z0 zs c rT hz hz0p hz0t hlk
    show lookupPath (extractAndCleanup isCurrentDir fs (p0 :: ps) lt.path
      (localMetaOf lt) lt.tree mf).2 lt.path = some (Entry.file c)
    unfold extractAndCleanup
    cases hep : extractPhase isCurrentDir fs (p0 :: ps) lt.tree mf with
    | ok fs2 =>
      show lookupPath (cleanupStep fs2 (localMetaOf lt) lt.path) lt.path
        = some (Entry.file c)
      have hcl : cleanupStep fs2 (localMetaOf lt) lt.path = fs2 := rfl
      rw [hcl]
      have hfr : getEntry fs2 z0 = getEntry fs z0 := by
        have h0 := extractPhase_getEntry_frame isCurrentDir fs p0 t0 ps ts lt.tree mf z0
          htemp hz0p hz0t
        rw [hep] at h0
        exact h0
      rw [hz] at hlk ⊢
      rw [lookupPath_congr fs fs2 z0 zs hfr]
      exact hlk
    | error efs =>
      show lookupPath (cleanupStep
        (if !isCurrentDir && pathExists efs (p0 :: ps) then removePath efs (p0 :: ps)
          else efs) (localMetaOf lt) lt.path) lt.path = some (Entry.file c)
      have hfr1 : getEntry efs z0 = getEntry fs z0 := by
        have h0 := extractPhase_getEntry_frame isCurrentDir fs p0 t0 ps ts lt.tree mf z0
          htemp hz0p hz0t
        rw [hep] at h0
        exact h0
      have hfr2 : getEntry (if !isCurrentDir && pathExists efs (p0 :: ps)
          then removePath efs (p0 :: ps) else efs) z0 = getEntry efs z0 := by
        split
        · exact removePath_getEntry_ne efs p0 ps z0 hz0p
        · rfl
      have hcl : cleanupStep (if !isCurrentDir && pathExists efs (p0 :: ps)
          then removePath efs (p0 :: ps) else efs) (localMetaOf lt) lt.path
          = (if !isCurrentDir && pathExists efs (p0 :: ps)
          then removePath efs (p0 :: ps) else efs) := rfl
      rw [hcl, hz]
      rw [lookupPath_congr fs _ z0 zs (hfr2.trans hfr1)]
      rw [hz] at hlk
      exact hlk
  · intro rt c0 cs fsDl hcwd hc0p hc0t hset
    subst hcwd
    simp only [download_and_extract_template, hset]
    show lookupPath (extractAndCleanup isCurrentDir fsDl (p0 :: ps)
      ((c0 :: cs) ++ [rt.filename]) (remoteMetaOf rt) rt.tree mf).2
      ((c0 :: cs) ++ [rt.filename]) = none
    have hlkDl : lookupPath fsDl (c0 :: (cs ++ [rt.filename]))
        = some (Entry.file (Content.text rt.filename)) :=
      setPath_lookup_self (c0 :: (cs ++ [rt.filename])) fs _ fsDl hset
    unfold extractAndCleanup
    cases hep : extractPhase isCurrentDir fsDl (p0 :: ps) rt.tree mf with
    | ok fs2 =>
      show lookupPath (cleanupStep fs2 (remoteMetaOf rt) (c0 :: (cs ++ [rt.filename])))
        (c0 :: (cs ++ [rt.filename])) = none
      have hfr : getEntry fs2 c0 = getEntry fsDl c0 := by
        have h0 := extractPhase_getEntry_frame isCurrentDir fsDl p0 t0 ps ts rt.tree mf c0
          htemp hc0p hc0t
        rw [hep] at h0
        exact h0
      have hlk2 : lookupPath fs2 (c0 :: (cs ++ [rt.filename]))
          = some (Entry.file (Content.text rt.filename)) := by
        rw [lookupPath_congr fsDl fs2 c0 _ hfr]
        exact hlkDl
      have hex : pathExists fs2 (c0 :: (cs ++ [rt.filename])) = true := by
        unfold pathExists
        rw [hlk2]
        rfl
      unfold cleanupStep
      have hcond : (decide ((remoteMetaOf rt).source = "github")
          && pathExists fs2 (c0 :: (cs ++ [rt.filename]))) = true := hex
      rw [if_pos hcond]
      exact removePath_lookup_self (c0 :: (cs ++ [rt.filename])) (by simp) fs2
    | error efs =>
      show lookupPath (cleanupStep
        (if !isCurrentDir && pathExists efs (p0 :: ps) then removePath efs (p0 :: ps)
          else efs) (remoteMetaOf rt) (c0 :: (cs ++ [rt.filename])))
        (c0 :: (cs ++ [rt.filename])) = none
      set efs2 := (if !isCurrentDir && pathExists efs (p0 :: ps)
        then removePath efs (p0 :: ps) else efs) with hefs2
      have hfr1 : getEntry efs c0 = getEntry fsDl c0 := by
        have h0 := extractPhase_getEntry_frame isCurrentDir fsDl p0 t0 ps ts rt.tree mf c0
          htemp hc0p hc0t
        rw [hep] at h0
        exact h0
      have hfr2 : getEntry efs2 c0 = getEntry efs c0 := by
        rw [hefs2]
        split
        · exact removePath_getEntry_ne efs p0 ps c0 hc0p
        · rfl
      have hlk2 : lookupPath efs2 (c0 :: (cs ++ [rt.filename]))
          = some (Entry.file (Content.text rt.filename)) := by
        rw [lookupPath_congr fsDl efs2 c0 _ (hfr2.trans hfr1)]
        exact hlkDl
      have hex : pathExists efs2 (c0 :: (cs ++ [rt.filename])) = true := by
        unfold pathExists
        rw [hlk2]
        rfl
      unfold cleanupStep
      have hcond : (decide ((remoteMetaOf rt).source = "github")
          && pathExists efs2 (c0 :: (cs ++ [rt.filename]))) = true := hex
      rw [if_pos hcond]
      exact removePath_lookup_self (c0 :: (cs ++ [rt.filename])) (by simp) efs2

/-- C4 witness: a concrete local run preserves `tpl.zip`, and a concrete
remote run deletes the downloaded zip from the download directory. -/
theorem archive_cleanup_iff_provenance_witness :
    lookupPath (download_and_extract_template ["work", "proj"] ["dl"] false
        (some ⟨["tpl.zip"], "spec-kit-template-claude-sh-v1.2.3.zip",
          [("x.txt", Entry.file (Content.text "hi"))]⟩) none none
        [("tpl.zip", Entry.file (Content.text "zipbytes")),
         ("work", Entry.dir []), ("dl", Entry.dir [])]).fs ["tpl.zip"]
      = some (Entry.file (Content.text "zipbytes")) ∧
    lookupPath (download_and_extract_template ["work", "proj"] ["dl"] false
        none (some ⟨"spec-kit-template-claude-sh-v9.9.9.zip", "v9.9.9",
          [("x.txt", Entry.file (Content.text "X"))]⟩) none
        [("tpl.zip", Entry.file (Content.text "zipbytes")),
         ("work", Entry.dir []), ("dl", Entry.dir [])]).fs
      (["dl"] ++ ["spec-kit-template-claude-sh-v9.9.9.zip"]) = none :=
  ⟨(archive_cleanup_iff_provenance "work" "work" ["proj"] ["proj_temp"] rfl false ["dl"]
      none _).1 _ "tpl.zip" [] _ none rfl (by decide) (by decide) rfl,
   (archive_cleanup_iff_provenance "work" "work" ["proj"] ["proj_temp"] rfl false ["dl"]
      none _).2 _ "dl" [] _ rfl (by decide) (by decide) (by rfl)⟩

end SpecKit
